import Mathlib

/-!
# Verification of `typid` — typed unique identifier (UUID v4 wrapper)

Shallow embedding of `src/src/lib.rs`. The crate wraps `uuid::Uuid` in a
phantom-typed struct `ID<T>` and delegates equality, ordering, hashing,
text conversion and serde conversion to the underlying 128-bit value.

The `uuid` crate itself is an external dependency (not part of this
repository's sources); its payload is modelled as the list of its 16
bytes, and its documented textual behaviour (lowercase hyphenated
rendering; parser accepting simple/hyphenated/braced/URN forms) is
modelled explicitly below.
-/

namespace Typid

/-! ## Hexadecimal codec (models the uuid crate's text layer) -/

/-- Modelled from the spec: value of one hexadecimal digit character as the
uuid crate's parser accepts it (both lowercase and uppercase), `none` for a
non-hex character. -/
def hexVal (c : Char) : Option Nat :=
  if '0' ≤ c ∧ c ≤ '9' then some (c.toNat - '0'.toNat)
  else if 'a' ≤ c ∧ c ≤ 'f' then some (c.toNat - 'a'.toNat + 10)
  else if 'A' ≤ c ∧ c ≤ 'F' then some (c.toNat - 'A'.toNat + 10)
  else none

/-- Modelled from the spec: each byte rendered as two lowercase hex digits,
high nibble first — the uuid crate's byte-to-text encoding. -/
def encodeBytes : List Nat → List Char
  | [] => []
  | b :: bs => Nat.digitChar (b / 16) :: Nat.digitChar (b % 16) :: encodeBytes bs

/-- Modelled from the spec: the canonical hyphenated rendering of a 16-byte
payload — 8-4-4-4-12 lowercase hex digits (bytes 0-3, 4-5, 6-7, 8-9, 10-15)
joined by hyphens, as produced by the uuid crate's `Display`. -/
def uuidChars (bs : List Nat) : List Char :=
  encodeBytes (bs.take 4) ++ '-' ::
  (encodeBytes ((bs.drop 4).take 2) ++ '-' ::
  (encodeBytes ((bs.drop 6).take 2) ++ '-' ::
  (encodeBytes ((bs.drop 8).take 2) ++ '-' ::
  encodeBytes (bs.drop 10))))

/-- Parse consecutive pairs of hex digits into bytes; fails on a non-hex
character or an odd count. -/
def parseHexPairs : List Char → Option (List Nat)
  | [] => some []
  | c1 :: c2 :: rest =>
    match hexVal c1, hexVal c2, parseHexPairs rest with
    | some h, some l, some bs => some ((h * 16 + l) :: bs)
    | _, _, _ => none
  | _ => none

/-- Modelled from the spec: the uuid crate's hyphenated-form parser — exactly
36 characters, hyphens at positions 8, 13, 18 and 23, the remaining 32
characters hex digits. -/
def parseHyphenated : List Char → Option (List Nat)
  | a1 :: a2 :: a3 :: a4 :: a5 :: a6 :: a7 :: a8 :: h1 ::
    b1 :: b2 :: b3 :: b4 :: h2 ::
    c1 :: c2 :: c3 :: c4 :: h3 ::
    d1 :: d2 :: d3 :: d4 :: h4 ::
    e1 :: e2 :: e3 :: e4 :: e5 :: e6 :: e7 :: e8 :: e9 :: e10 :: e11 :: e12 :: [] =>
    if h1 = '-' ∧ h2 = '-' ∧ h3 = '-' ∧ h4 = '-' then
      parseHexPairs (a1 :: a2 :: a3 :: a4 :: a5 :: a6 :: a7 :: a8 ::
        b1 :: b2 :: b3 :: b4 :: c1 :: c2 :: c3 :: c4 :: d1 :: d2 :: d3 :: d4 ::
        e1 :: e2 :: e3 :: e4 :: e5 :: e6 :: e7 :: e8 :: e9 :: e10 :: e11 :: e12 :: [])
    else none
  | _ => none

/-- Modelled from the spec: the uuid crate's `Uuid::parse_str` dispatch —
32 characters: simple form; 36: hyphenated; 38 wrapped in braces: hyphenated
inside; 45 with the `urn:uuid:` prefix: hyphenated remainder. -/
def tryParseChars (cs : List Char) : Option (List Nat) :=
  if cs.length = 32 then parseHexPairs cs
  else if cs.length = 36 then parseHyphenated cs
  else if cs.length = 38 then
    match cs with
    | '{' :: rest =>
      match rest.getLast? with
      | some '}' => parseHyphenated rest.dropLast
      | _ => none
    | _ => none
  else if cs.length = 45 then
    match cs with
    | 'u' :: 'r' :: 'n' :: ':' :: 'u' :: 'u' :: 'i' :: 'd' :: ':' :: rest =>
      parseHyphenated rest
    | _ => none
  else none

/-- Modelled from the spec: `Uuid::new_v4` builds the payload from 16 random
bytes, forcing byte 6 to `(b & 0x0f) | 0x40` (version 4) and byte 8 to
`(b & 0x3f) | 0x80` (RFC 4122 variant). Since the masked values are below
the set bit, bitwise-or is addition. -/
def uuidNewV4 (random : List Nat) : List Nat :=
  (random.set 6 (random.getD 6 0 % 16 + 64)).set 8 (random.getD 8 0 % 64 + 128)

/-! ## The `ID<T>` wrapper (from `src/src/lib.rs`) -/

/-- `pub struct ID<T> { id: Uuid, _phantom: PhantomData<fn() -> T> }`:
the phantom tag `T` is carried only at the type level; the sole runtime
datum is the 128-bit value, modelled as its 16 bytes. -/
structure ID (T : Type) where
  id : List Nat
  deriving DecidableEq, Repr

variable {T : Type}

/-- The payload is a well-formed `[u8; 16]`: sixteen bytes, each below 256.
Rust's types guarantee this for every constructible `Uuid`. -/
def validBytes (bs : List Nat) : Prop := bs.length = 16 ∧ ∀ b ∈ bs, b < 256

instance (bs : List Nat) : Decidable (validBytes bs) :=
  inferInstanceAs (Decidable (bs.length = 16 ∧ ∀ b ∈ bs, b < 256))

/-- `ID::from_bytes`: wraps the bytes verbatim (`Uuid::from_bytes` stores its
argument unchanged), with no validation and no failure path. -/
def ID.from_bytes (bytes : List Nat) : ID T := ⟨bytes⟩

/-- `ID::uuid`: returns the underlying UUID payload by copy. -/
def ID.uuid (x : ID T) : List Nat := x.id

/-- `Default for ID<T>`: `Uuid::new_v4()` on the bytes drawn from the
process-wide random source, passed here as the explicit argument. -/
def ID.defaultFrom (random : List Nat) : ID T := ⟨uuidNewV4 random⟩

/-- `ID::new`: delegates to `Self::default()`. -/
def ID.new (random : List Nat) : ID T := ID.defaultFrom random

/-- `ToString for ID<T>`: `format!("{}", self.id)` — the uuid `Display`
(canonical lowercase hyphenated form). -/
def ID.to_string (x : ID T) : String := String.mk (uuidChars x.id)

/-- `FromStr for ID<T>`: `Uuid::parse_str(s)`, wrapping a parsed payload and
returning `Err(s.to_owned())` — the original input string — on failure. -/
def ID.from_str (s : String) : Except String (ID T) :=
  match tryParseChars s.data with
  | some bs => .ok ⟨bs⟩
  | none => .error s

/-- `PartialEq for ID<T>`: `self.id == other.id` — payload comparison only. -/
def ID.beq (x y : ID T) : Bool := x.id == y.id

/-- `Hash for ID<T>`: `self.id.hash(state)` — the hasher consumes exactly the
payload bytes; the hasher itself is abstracted as a function of those bytes. -/
def ID.hash (hasher : List Nat → Nat) (x : ID T) : Nat := hasher x.id

/-- Modelled from the spec: the uuid crate's derived `Ord` — lexicographic
byte-wise comparison of the two 16-byte payloads. -/
def cmpBytes : List Nat → List Nat → Ordering
  | [], [] => .eq
  | [], _ :: _ => .lt
  | _ :: _, [] => .gt
  | a :: as, b :: bs => if a < b then .lt else if b < a then .gt else cmpBytes as bs

/-- `Ord for ID<T>`: `self.id.cmp(&other.id)`. -/
def ID.cmp (x y : ID T) : Ordering := cmpBytes x.id y.id

/-- `PartialOrd for ID<T>`: `Some(self.id.cmp(&other.id))` — always `Some`. -/
def ID.cmpOpt (x y : ID T) : Option Ordering := some (ID.cmp x y)

/-! ## Serde layer: `IDDef` intermediate -/

/-- `struct IDDef(pub String)` — the serde intermediate; a newtype struct
serializes as its single string field. -/
structure IDDef where
  s : String
  deriving DecidableEq, Repr

/-- `TryFrom<IDDef> for ID<T>`: `Self::from_str(&id.0)`. -/
def ID.try_from (d : IDDef) : Except String (ID T) := ID.from_str d.s

/-- `Into<IDDef> for ID<T>`: `IDDef(self.to_string())`. -/
def ID.intoDef (x : ID T) : IDDef := ⟨x.to_string⟩

/-- Serialization of `ID<T>`: through `IDDef`, producing the single string
field (never a nested object, never raw bytes). -/
def serializeID (x : ID T) : String := (ID.intoDef x).s

/-- Deserialization of `ID<T>`: the string field goes through `IDDef` then
`TryFrom`, i.e. `from_str`; a parse failure surfaces as an error. -/
def deserializeID (s : String) : Except String (ID T) := ID.try_from ⟨s⟩

/-! ## Spec-side characterisations -/

/-- A lowercase hexadecimal digit (the only digits the canonical form uses). -/
def isLowerHexDigit (c : Char) : Bool :=
  ('0' ≤ c && c ≤ '9') || ('a' ≤ c && c ≤ 'f')

/-- The spec's canonical text form: exactly 36 characters, hyphens at
positions 8, 13, 18 and 23, all other characters lowercase hex digits
(8-4-4-4-12 layout). Written from the spec's words, independently of the
encoder, to characterise `to_string`'s output. -/
def isCanonicalUuidString (s : String) : Bool :=
  match s.data with
  | a1 :: a2 :: a3 :: a4 :: a5 :: a6 :: a7 :: a8 :: h1 ::
    b1 :: b2 :: b3 :: b4 :: h2 ::
    c1 :: c2 :: c3 :: c4 :: h3 ::
    d1 :: d2 :: d3 :: d4 :: h4 ::
    e1 :: e2 :: e3 :: e4 :: e5 :: e6 :: e7 :: e8 :: e9 :: e10 :: e11 :: e12 :: [] =>
    (h1 == '-') && (h2 == '-') && (h3 == '-') && (h4 == '-') &&
    (a1 :: a2 :: a3 :: a4 :: a5 :: a6 :: a7 :: a8 ::
     b1 :: b2 :: b3 :: b4 :: c1 :: c2 :: c3 :: c4 :: d1 :: d2 :: d3 :: d4 ::
     e1 :: e2 :: e3 :: e4 :: e5 :: e6 :: e7 :: e8 :: e9 :: e10 :: e11 :: e12 :: []).all
      isLowerHexDigit
  | _ => false

/-- Lexicographic strict order on byte lists, written from the spec's words
("lexicographically less") independently of `cmpBytes`. -/
inductive LexLt : List Nat → List Nat → Prop
  | nil {b : Nat} {bs : List Nat} : LexLt [] (b :: bs)
  | head {a b : Nat} {as bs : List Nat} : a < b → LexLt (a :: as) (b :: bs)
  | tail {a : Nat} {as bs : List Nat} : LexLt as bs → LexLt (a :: as) (a :: bs)

/-! ## Supporting lemmas -/

instance {ε α : Type} [DecidableEq ε] [DecidableEq α] : DecidableEq (Except ε α) := fun x y =>
  match x, y with
  | .ok a, .ok b =>
    if h : a = b then isTrue (by rw [h]) else isFalse (by simp [h])
  | .error a, .error b =>
    if h : a = b then isTrue (by rw [h]) else isFalse (by simp [h])
  | .ok _, .error _ => isFalse (by simp)
  | .error _, .ok _ => isFalse (by simp)

theorem hexVal_digitChar : ∀ d < 16, hexVal (Nat.digitChar d) = some d := by decide

theorem isLowerHexDigit_digitChar : ∀ d < 16, isLowerHexDigit (Nat.digitChar d) = true := by
  decide

theorem hexVal_toUpper_digitChar :
    ∀ d < 16, hexVal (Char.toUpper (Nat.digitChar d)) = some d := by decide

theorem parseHexPairs_encodeBytes (bs : List Nat) (h : ∀ b ∈ bs, b < 256) :
    parseHexPairs (encodeBytes bs) = some bs := by
  induction bs with
  | nil => rfl
  | cons b tl ih =>
    have hb : b < 256 := h b (List.mem_cons_self _ _)
    have h1 : hexVal (Nat.digitChar (b / 16)) = some (b / 16) :=
      hexVal_digitChar _ (by omega)
    have h2 : hexVal (Nat.digitChar (b % 16)) = some (b % 16) :=
      hexVal_digitChar _ (by omega)
    have h3 : parseHexPairs (encodeBytes tl) = some tl :=
      ih fun x hx => h x (List.mem_cons_of_mem _ hx)
    simp only [encodeBytes, parseHexPairs, h1, h2, h3]
    have : b / 16 * 16 + b % 16 = b := by omega
    rw [this]

theorem parseHexPairs_encodeBytes_upper (bs : List Nat) (h : ∀ b ∈ bs, b < 256) :
    parseHexPairs ((encodeBytes bs).map Char.toUpper) = some bs := by
  induction bs with
  | nil => rfl
  | cons b tl ih =>
    have hb : b < 256 := h b (List.mem_cons_self _ _)
    have h1 : hexVal (Char.toUpper (Nat.digitChar (b / 16))) = some (b / 16) :=
      hexVal_toUpper_digitChar _ (by omega)
    have h2 : hexVal (Char.toUpper (Nat.digitChar (b % 16))) = some (b % 16) :=
      hexVal_toUpper_digitChar _ (by omega)
    have h3 : parseHexPairs ((encodeBytes tl).map Char.toUpper) = some tl :=
      ih fun x hx => h x (List.mem_cons_of_mem _ hx)
    simp only [encodeBytes, List.map_cons, parseHexPairs, h1, h2, h3]
    have : b / 16 * 16 + b % 16 = b := by omega
    rw [this]

theorem all_lowerHex_encodeBytes (bs : List Nat) (h : ∀ b ∈ bs, b < 256) :
    (encodeBytes bs).all isLowerHexDigit = true := by
  induction bs with
  | nil => rfl
  | cons b tl ih =>
    have hb : b < 256 := h b (List.mem_cons_self _ _)
    simp only [encodeBytes, List.all_cons, Bool.and_eq_true]
    exact ⟨isLowerHexDigit_digitChar _ (by omega), isLowerHexDigit_digitChar _ (by omega),
      ih fun x hx => h x (List.mem_cons_of_mem _ hx)⟩

theorem cons_of_len {l : List Nat} {n : Nat} (h : l.length = n + 1) :
    ∃ a t, l = a :: t ∧ t.length = n := by
  cases l with
  | nil => exact absurd h (by simp)
  | cons a t => exact ⟨a, t, rfl, by simpa using h⟩

theorem list_len16 (l : List Nat) (h : l.length = 16) :
    ∃ b0 b1 b2 b3 b4 b5 b6 b7 b8 b9 b10 b11 b12 b13 b14 b15,
      l = b0 :: b1 :: b2 :: b3 :: b4 :: b5 :: b6 :: b7 :: b8 :: b9 :: b10 :: b11 ::
        b12 :: b13 :: b14 :: b15 :: [] := by
  obtain ⟨b0, t0, rfl, h0⟩ := cons_of_len h
  obtain ⟨b1, t1, rfl, h1⟩ := cons_of_len h0
  obtain ⟨b2, t2, rfl, h2⟩ := cons_of_len h1
  obtain ⟨b3, t3, rfl, h3⟩ := cons_of_len h2
  obtain ⟨b4, t4, rfl, h4⟩ := cons_of_len h3
  obtain ⟨b5, t5, rfl, h5⟩ := cons_of_len h4
  obtain ⟨b6, t6, rfl, h6⟩ := cons_of_len h5
  obtain ⟨b7, t7, rfl, h7⟩ := cons_of_len h6
  obtain ⟨b8, t8, rfl, h8⟩ := cons_of_len h7
  obtain ⟨b9, t9, rfl, h9⟩ := cons_of_len h8
  obtain ⟨b10, t10, rfl, h10⟩ := cons_of_len h9
  obtain ⟨b11, t11, rfl, h11⟩ := cons_of_len h10
  obtain ⟨b12, t12, rfl, h12⟩ := cons_of_len h11
  obtain ⟨b13, t13, rfl, h13⟩ := cons_of_len h12
  obtain ⟨b14, t14, rfl, h14⟩ := cons_of_len h13
  obtain ⟨b15, t15, rfl, h15⟩ := cons_of_len h14
  have ht : t15 = [] := List.eq_nil_of_length_eq_zero h15
  subst ht
  exact ⟨b0, b1, b2, b3, b4, b5, b6, b7, b8, b9, b10, b11, b12, b13, b14, b15, rfl⟩

theorem tryParseChars_uuidChars (bs : List Nat) (h : validBytes bs) :
    tryParseChars (uuidChars bs) = some bs := by
  obtain ⟨hlen, hlt⟩ := h
  obtain ⟨b0, b1, b2, b3, b4, b5, b6, b7, b8, b9, b10, b11, b12, b13, b14, b15, rfl⟩ :=
    list_len16 _ hlen
  exact parseHexPairs_encodeBytes _ hlt

theorem tryParseChars_simple (bs : List Nat) (h : validBytes bs) :
    tryParseChars (encodeBytes bs) = some bs := by
  obtain ⟨hlen, hlt⟩ := h
  obtain ⟨b0, b1, b2, b3, b4, b5, b6, b7, b8, b9, b10, b11, b12, b13, b14, b15, rfl⟩ :=
    list_len16 _ hlen
  exact parseHexPairs_encodeBytes _ hlt

theorem tryParseChars_upper (bs : List Nat) (h : validBytes bs) :
    tryParseChars ((uuidChars bs).map Char.toUpper) = some bs := by
  obtain ⟨hlen, hlt⟩ := h
  obtain ⟨b0, b1, b2, b3, b4, b5, b6, b7, b8, b9, b10, b11, b12, b13, b14, b15, rfl⟩ :=
    list_len16 _ hlen
  exact parseHexPairs_encodeBytes_upper _ hlt

theorem tryParseChars_braced (bs : List Nat) (h : validBytes bs) :
    tryParseChars ('{' :: uuidChars bs ++ ['}']) = some bs := by
  obtain ⟨hlen, hlt⟩ := h
  obtain ⟨b0, b1, b2, b3, b4, b5, b6, b7, b8, b9, b10, b11, b12, b13, b14, b15, rfl⟩ :=
    list_len16 _ hlen
  exact parseHexPairs_encodeBytes _ hlt

theorem tryParseChars_urn (bs : List Nat) (h : validBytes bs) :
    tryParseChars
      ('u' :: 'r' :: 'n' :: ':' :: 'u' :: 'u' :: 'i' :: 'd' :: ':' :: uuidChars bs) =
      some bs := by
  obtain ⟨hlen, hlt⟩ := h
  obtain ⟨b0, b1, b2, b3, b4, b5, b6, b7, b8, b9, b10, b11, b12, b13, b14, b15, rfl⟩ :=
    list_len16 _ hlen
  exact parseHexPairs_encodeBytes _ hlt

theorem isCanonical_uuidChars (bs : List Nat) (h : validBytes bs) :
    isCanonicalUuidString (String.mk (uuidChars bs)) = true := by
  obtain ⟨hlen, hlt⟩ := h
  obtain ⟨b0, b1, b2, b3, b4, b5, b6, b7, b8, b9, b10, b11, b12, b13, b14, b15, rfl⟩ :=
    list_len16 _ hlen
  exact all_lowerHex_encodeBytes _ hlt

theorem from_str_to_string (T : Type) (x : ID T) (h : validBytes x.uuid) :
    ID.from_str (T := T) (ID.to_string x) = Except.ok x := by
  obtain ⟨bs⟩ := x
  show ID.from_str (String.mk (uuidChars bs)) = Except.ok ⟨bs⟩
  unfold ID.from_str
  rw [show (String.mk (uuidChars bs)).data = uuidChars bs from rfl,
    tryParseChars_uuidChars bs h]

theorem cmpBytes_eq_iff : ∀ a b : List Nat, cmpBytes a b = .eq ↔ a = b := by
  intro a
  induction a with
  | nil =>
    intro b
    cases b <;> simp [cmpBytes]
  | cons x xs ih =>
    intro b
    cases b with
    | nil => simp [cmpBytes]
    | cons y ys =>
      simp only [cmpBytes]
      rcases Nat.lt_trichotomy x y with h | h | h
      · rw [if_pos h]
        have hne : x ≠ y := Nat.ne_of_lt h
        simp [hne]
      · subst h
        rw [if_neg (lt_irrefl x), if_neg (lt_irrefl x)]
        simp [ih ys]
      · rw [if_neg (by omega), if_pos h]
        have hne : x ≠ y := by omega
        simp [hne]

theorem cmpBytes_lt_iff_gt : ∀ a b : List Nat, cmpBytes a b = .lt ↔ cmpBytes b a = .gt := by
  intro a
  induction a with
  | nil =>
    intro b
    cases b <;> simp [cmpBytes]
  | cons x xs ih =>
    intro b
    cases b with
    | nil => simp [cmpBytes]
    | cons y ys =>
      rcases Nat.lt_trichotomy x y with h | h | h
      · have h2 : ¬ y < x := by omega
        simp [cmpBytes, h, h2]
      · subst h
        simp only [cmpBytes, if_neg (lt_irrefl x)]
        exact ih ys
      · have h2 : ¬ x < y := by omega
        simp [cmpBytes, h, h2]

theorem cmpBytes_lt_trans :
    ∀ a b c : List Nat, cmpBytes a b = .lt → cmpBytes b c = .lt → cmpBytes a c = .lt := by
  intro a
  induction a with
  | nil =>
    intro b c hab hbc
    cases b with
    | nil => simp [cmpBytes] at hab
    | cons y ys =>
      cases c with
      | nil => simp [cmpBytes] at hbc
      | cons z zs => simp [cmpBytes]
  | cons x xs ih =>
    intro b c hab hbc
    cases b with
    | nil => simp [cmpBytes] at hab
    | cons y ys =>
      cases c with
      | nil => simp [cmpBytes] at hbc
      | cons z zs =>
        simp only [cmpBytes] at hab hbc ⊢
        by_cases h1 : x < y
        · by_cases h2 : y < z
          · rw [if_pos (by omega)]
          · rw [if_neg h2] at hbc
            by_cases h3 : z < y
            · rw [if_pos h3] at hbc
              exact absurd hbc (by simp)
            · have hyz : y = z := by omega
              subst hyz
              rw [if_pos h1]
        · by_cases h3 : y < x
          · rw [if_neg h1, if_pos h3] at hab
            exact absurd hab (by simp)
          · have hxy : x = y := by omega
            subst hxy
            rw [if_neg h1, if_neg h3] at hab
            by_cases h2 : x < z
            · rw [if_pos h2]
            · by_cases h4 : z < x
              · rw [if_neg h2, if_pos h4] at hbc
                exact absurd hbc (by simp)
              · have hxz : x = z := by omega
                subst hxz
                rw [if_neg h2, if_neg h4] at hbc
                rw [if_neg h2, if_neg h4]
                exact ih _ _ hab hbc

theorem cmpBytes_lt_iff_LexLt : ∀ a b : List Nat, cmpBytes a b = .lt ↔ LexLt a b := by
  intro a
  induction a with
  | nil =>
    intro b
    cases b with
    | nil =>
      constructor
      · intro h
        simp [cmpBytes] at h
      · intro h
        nomatch h
    | cons y ys =>
      constructor
      · intro _
        exact LexLt.nil
      · intro _
        rfl
  | cons x xs ih =>
    intro b
    cases b with
    | nil =>
      constructor
      · intro h
        simp [cmpBytes] at h
      · intro h
        nomatch h
    | cons y ys =>
      constructor
      · intro hc
        simp only [cmpBytes] at hc
        rcases Nat.lt_trichotomy x y with h | h | h
        · exact LexLt.head h
        · subst h
          rw [if_neg (lt_irrefl x), if_neg (lt_irrefl x)] at hc
          exact LexLt.tail ((ih ys).1 hc)
        · rw [if_neg (by omega), if_pos h] at hc
          exact absurd hc (by simp)
      · intro hlex
        cases hlex with
        | head h => simp [cmpBytes, h]
        | tail h =>
          simp only [cmpBytes, if_neg (lt_irrefl x)]
          exact (ih ys).2 h

/-! ## Claim theorems -/

/-- C1: textual round-trip — for every identifier whose payload is a
well-formed 16-byte array (as every Rust-constructible `Uuid` is),
`from_str (to_string x)` succeeds and returns an identifier equal to `x`;
the witness below instantiates this at the spec's concrete byte pattern,
whose rendering is `"550e8400-e29b-41d4-a716-446655440000"`. -/
theorem C1_text_round_trip (T : Type) (x : ID T) (h : validBytes x.uuid) :
    ID.from_str (T := T) (ID.to_string x) = Except.ok x :=
  from_str_to_string T x h

/-- C1 witness: the concrete identifier from the spec renders to the
canonical string and `from_str` of that string returns it unchanged. -/
theorem C1_text_round_trip_witness :
    ID.to_string (ID.from_bytes (T := Unit)
        [0x55, 0x0e, 0x84, 0x00, 0xe2, 0x9b, 0x41, 0xd4,
         0xa7, 0x16, 0x44, 0x66, 0x55, 0x44, 0x00, 0x00]) =
      "550e8400-e29b-41d4-a716-446655440000" ∧
    ID.from_str (T := Unit) "550e8400-e29b-41d4-a716-446655440000" =
      Except.ok (ID.from_bytes
        [0x55, 0x0e, 0x84, 0x00, 0xe2, 0x9b, 0x41, 0xd4,
         0xa7, 0x16, 0x44, 0x66, 0x55, 0x44, 0x00, 0x00]) :=
  ⟨rfl, C1_text_round_trip Unit (ID.from_bytes
    [0x55, 0x0e, 0x84, 0x00, 0xe2, 0x9b, 0x41, 0xd4,
     0xa7, 0x16, 0x44, 0x66, 0x55, 0x44, 0x00, 0x00]) (by decide)⟩

/-- C2: structured (serde) round-trip — serialization of a validly
constructed identifier goes through `IDDef` and produces the single
canonical string (the serialized form is of string type by construction,
never an object or raw bytes); deserializing that form returns the
identifier, and re-serializing whatever deserialization returned yields the
same string again. -/
theorem C2_serde_round_trip (T : Type) (x : ID T) (h : validBytes x.uuid) :
    deserializeID (T := T) (serializeID x) = Except.ok x ∧
    serializeID x = ID.to_string x ∧
    ∀ y : ID T, deserializeID (T := T) (serializeID x) = Except.ok y →
      serializeID y = serializeID x := by
  have h1 : deserializeID (T := T) (serializeID x) = Except.ok x :=
    from_str_to_string T x h
  refine ⟨h1, rfl, ?_⟩
  intro y hy
  rw [h1] at hy
  injection hy with hxy
  rw [hxy]

/-- C2 witness: the serde round-trip at a concrete identifier. -/
theorem C2_serde_round_trip_witness :
    deserializeID (T := Unit) (serializeID (ID.from_bytes (T := Unit)
        [0x12, 0x34, 0x56, 0x78, 0x9a, 0xbc, 0xde, 0xf0,
         0x0f, 0xed, 0xcb, 0xa9, 0x87, 0x65, 0x43, 0x21])) =
      Except.ok (ID.from_bytes
        [0x12, 0x34, 0x56, 0x78, 0x9a, 0xbc, 0xde, 0xf0,
         0x0f, 0xed, 0xcb, 0xa9, 0x87, 0x65, 0x43, 0x21]) :=
  (C2_serde_round_trip Unit (ID.from_bytes
    [0x12, 0x34, 0x56, 0x78, 0x9a, 0xbc, 0xde, 0xf0,
     0x0f, 0xed, 0xcb, 0xa9, 0x87, 0x65, 0x43, 0x21]) (by decide)).1

/-- C3: parse failure behaviour — whenever the input string is rejected by
the UUID textual grammar (the parser yields no payload), `from_str` produces
no identifier and returns an error carrying exactly the original input. -/
theorem C3_parse_failure (T : Type) (s : String) (h : tryParseChars s.data = none) :
    ID.from_str (T := T) s = Except.error s := by
  unfold ID.from_str
  rw [h]

/-- C3 witness: `"not-a-uuid"` is rejected and the error carries it back. -/
theorem C3_parse_failure_witness :
    tryParseChars "not-a-uuid".data = none ∧
    ID.from_str (T := Unit) "not-a-uuid" = Except.error "not-a-uuid" :=
  ⟨by decide, C3_parse_failure Unit "not-a-uuid" (by decide)⟩

/-- C4: `from_bytes` is total and verbatim — it is a plain function of the
byte array (no failure path exists) and the payload observable through
`uuid()` is exactly the bytes supplied, with no validation and no
version/variant bit-fixing. -/
theorem C4_from_bytes_verbatim (T : Type) (b : List Nat) :
    (ID.from_bytes (T := T) b).uuid = b := rfl

/-- C5: equality is payload-only — the `PartialEq` test succeeds exactly when
the two 128-bit payloads are equal, which coincides with value equality of
the phantom-tagged struct (the tag stores nothing, and the definition is
uniform in `T`); identical byte arrays construct equal identifiers. -/
theorem C5_eq_payload_only (T : Type) (x y : ID T) (b : List Nat) :
    (ID.beq x y = true ↔ x.uuid = y.uuid) ∧
    (ID.beq x y = true ↔ x = y) ∧
    ID.beq (ID.from_bytes (T := T) b) (ID.from_bytes (T := T) b) = true := by
  refine ⟨?_, ?_, ?_⟩
  · simp [ID.beq, ID.uuid]
  · cases x
    cases y
    simp [ID.beq, ID.uuid, ID.mk.injEq]
  · simp [ID.beq]

/-- C6: hash/equality consistency — the hash is the hasher's digest of the
payload bytes alone (uniformly in the tag type), so identifiers that compare
equal hash identically under every hasher. -/
theorem C6_hash_consistency (T : Type) (hasher : List Nat → Nat) (x y : ID T)
    (h : ID.beq x y = true) : ID.hash hasher x = ID.hash hasher y := by
  cases x
  cases y
  simp only [ID.beq, beq_iff_eq] at h
  simp [ID.hash, h]

/-- C6 witness: equal identifiers built from the same bytes hash equal under
a concrete hasher. -/
theorem C6_hash_consistency_witness :
    ID.hash (fun l => l.sum) (ID.from_bytes (T := Unit) (List.replicate 16 7)) =
      ID.hash (fun l => l.sum) (ID.from_bytes (T := Unit) (List.replicate 16 7)) :=
  C6_hash_consistency Unit (fun l => l.sum)
    (ID.from_bytes (List.replicate 16 7)) (ID.from_bytes (List.replicate 16 7)) (by decide)

/-- C7: ordering — `cmp` is the total order induced by byte-wise
lexicographic comparison of the payloads: it returns `eq` exactly on equal
identifiers, `lt` exactly when the reversed comparison is `gt` (so exactly
one of the three relations holds), it is transitive, `lt` coincides with
lexicographic less-than on the 16-byte payloads, and `partial_cmp` is always
`some cmp`. -/
theorem C7_ordering (T : Type) (x y z : ID T) :
    (ID.cmp x y = .eq ↔ x = y) ∧
    (ID.cmp x y = .lt ↔ ID.cmp y x = .gt) ∧
    (ID.cmp x y = .lt → ID.cmp y z = .lt → ID.cmp x z = .lt) ∧
    (ID.cmp x y = .lt ↔ LexLt x.uuid y.uuid) ∧
    ID.cmpOpt x y = some (ID.cmp x y) := by
  refine ⟨?_, ?_, ?_, ?_, rfl⟩
  · cases x
    cases y
    simpa [ID.cmp, ID.mk.injEq] using cmpBytes_eq_iff _ _
  · exact cmpBytes_lt_iff_gt _ _
  · exact cmpBytes_lt_trans _ _ _
  · exact cmpBytes_lt_iff_LexLt _ _

/-- C7 witness: the comparison at concrete equal identifiers is `eq`. -/
theorem C7_ordering_witness :
    ID.cmp (ID.from_bytes (T := Unit) (List.replicate 16 3))
      (ID.from_bytes (T := Unit) (List.replicate 16 3)) = Ordering.eq :=
  (C7_ordering Unit (ID.from_bytes (List.replicate 16 3))
    (ID.from_bytes (List.replicate 16 3))
    (ID.from_bytes (List.replicate 16 3))).1.mpr rfl

/-- C8: canonical rendering — `to_string` is a total pure function and, on
every identifier with a well-formed 16-byte payload, its output is the
36-character hyphenated lowercase hexadecimal form (8-4-4-4-12). -/
theorem C8_to_string_canonical (T : Type) (x : ID T) (h : validBytes x.uuid) :
    isCanonicalUuidString (ID.to_string x) = true ∧ (ID.to_string x).length = 36 := by
  obtain ⟨bs⟩ := x
  refine ⟨isCanonical_uuidChars bs h, ?_⟩
  obtain ⟨hlen, -⟩ := h
  obtain ⟨b0, b1, b2, b3, b4, b5, b6, b7, b8, b9, b10, b11, b12, b13, b14, b15, rfl⟩ :=
    list_len16 _ hlen
  rfl

/-- C8 witness: canonical form of a concrete identifier. -/
theorem C8_to_string_canonical_witness :
    isCanonicalUuidString (ID.to_string (ID.from_bytes (T := Unit)
        [0xde, 0xad, 0xbe, 0xef, 0x00, 0x11, 0x22, 0x33,
         0x44, 0x55, 0x66, 0x77, 0x88, 0x99, 0xaa, 0xbb])) = true ∧
    (ID.to_string (ID.from_bytes (T := Unit)
        [0xde, 0xad, 0xbe, 0xef, 0x00, 0x11, 0x22, 0x33,
         0x44, 0x55, 0x66, 0x77, 0x88, 0x99, 0xaa, 0xbb])).length = 36 :=
  C8_to_string_canonical Unit (ID.from_bytes
    [0xde, 0xad, 0xbe, 0xef, 0x00, 0x11, 0x22, 0x33,
     0x44, 0x55, 0x66, 0x77, 0x88, 0x99, 0xaa, 0xbb]) (by decide)

/-- C9: random construction — for every 16-byte draw from the random source,
`new` (which is exactly the default constructor) succeeds and yields a
16-byte payload whose byte 6 has its high nibble forced to 4 (the version)
and byte 8 its top two bits forced to `10` (the variant), while the low
nibble of byte 6, the low six bits of byte 8 and all fourteen other bytes —
the remaining 122 bits — come from the draw unchanged. -/
theorem C9_new_v4_layout (T : Type) (r : List Nat) (h : r.length = 16) :
    (ID.new (T := T) r).uuid.length = 16 ∧
    (ID.new (T := T) r).uuid.getD 6 0 / 16 = 4 ∧
    (ID.new (T := T) r).uuid.getD 8 0 / 64 = 2 ∧
    (ID.new (T := T) r).uuid.getD 6 0 % 16 = r.getD 6 0 % 16 ∧
    (ID.new (T := T) r).uuid.getD 8 0 % 64 = r.getD 8 0 % 64 ∧
    (∀ i, i < 16 → i ≠ 6 → i ≠ 8 → (ID.new (T := T) r).uuid.getD i 0 = r.getD i 0) ∧
    ID.new (T := T) r = ID.defaultFrom (T := T) r := by
  obtain ⟨b0, b1, b2, b3, b4, b5, b6, b7, b8, b9, b10, b11, b12, b13, b14, b15, rfl⟩ :=
    list_len16 _ h
  refine ⟨rfl, ?_, ?_, ?_, ?_, ?_, rfl⟩
  · show (b6 % 16 + 64) / 16 = 4
    omega
  · show (b8 % 64 + 128) / 64 = 2
    omega
  · show (b6 % 16 + 64) % 16 = b6 % 16
    omega
  · show (b8 % 64 + 128) % 64 = b8 % 64
    omega
  · intro i hi hi6 hi8
    interval_cases i <;> first | rfl | omega

/-- C9 witness: the version and variant bits at a concrete random draw. -/
theorem C9_new_v4_layout_witness :
    (ID.new (T := Unit) (List.replicate 16 0xff)).uuid.getD 6 0 / 16 = 4 ∧
    (ID.new (T := Unit) (List.replicate 16 0xff)).uuid.getD 8 0 / 64 = 2 :=
  ⟨(C9_new_v4_layout Unit (List.replicate 16 0xff) (by decide)).2.1,
   (C9_new_v4_layout Unit (List.replicate 16 0xff) (by decide)).2.2.1⟩

/-- C10: lenient parsing — beyond the canonical lowercase hyphenated form,
the parser accepts the 32-digit simple form, the all-uppercase form, the
braced form and the URN form of any well-formed payload, each yielding the
same payload as the canonical parse; and since `to_string` always emits the
canonical form, serializing an identifier deserialized from any
non-canonical string does not reproduce that string. -/
theorem C10_lenient_parsing (T : Type) (bs : List Nat) (h : validBytes bs) :
    tryParseChars (encodeBytes bs) = some bs ∧
    tryParseChars ((uuidChars bs).map Char.toUpper) = some bs ∧
    tryParseChars ('{' :: uuidChars bs ++ ['}']) = some bs ∧
    tryParseChars
      ('u' :: 'r' :: 'n' :: ':' :: 'u' :: 'u' :: 'i' :: 'd' :: ':' :: uuidChars bs) =
      some bs ∧
    tryParseChars (uuidChars bs) = some bs ∧
    ∀ s : String, isCanonicalUuidString s = false →
      ID.to_string (ID.from_bytes (T := T) bs) ≠ s := by
  refine ⟨tryParseChars_simple bs h, tryParseChars_upper bs h, tryParseChars_braced bs h,
    tryParseChars_urn bs h, tryParseChars_uuidChars bs h, ?_⟩
  intro s hs hcontra
  have hcanon : isCanonicalUuidString (ID.to_string (ID.from_bytes (T := T) bs)) = true :=
    isCanonical_uuidChars bs h
  rw [hcontra, hs] at hcanon
  exact Bool.false_ne_true hcanon

/-- C10 witness: the simple (hyphen-free) form of the spec's concrete bytes
parses to the same payload. -/
theorem C10_lenient_parsing_witness :
    tryParseChars (encodeBytes
      [0x55, 0x0e, 0x84, 0x00, 0xe2, 0x9b, 0x41, 0xd4,
       0xa7, 0x16, 0x44, 0x66, 0x55, 0x44, 0x00, 0x00]) =
      some [0x55, 0x0e, 0x84, 0x00, 0xe2, 0x9b, 0x41, 0xd4,
            0xa7, 0x16, 0x44, 0x66, 0x55, 0x44, 0x00, 0x00] :=
  (C10_lenient_parsing Unit
    [0x55, 0x0e, 0x84, 0x00, 0xe2, 0x9b, 0x41, 0xd4,
     0xa7, 0x16, 0x44, 0x66, 0x55, 0x44, 0x00, 0x00] (by decide)).1

end Typid
